import Mathlib

/-!
Verification of the deinit crate: a shallow embedding of the
vector engine (VecImpl / SliceVec), the Storage contract, the
reservation-error type and the fill / retain algorithms, together with
theorems settling the specification claims about them.

Modelling conventions:
- A possibly uninitialized slot of element type A is an Option A:
  some x means the slot holds the live value x, none means it is
  uninitialized (or its value has been moved out / destroyed).
- usize arithmetic is Nat together with explicit mod 2 ^ 64 where the
  source performs wrapping arithmetic; unchecked subtraction (undefined
  behaviour on underflow) is modelled as an Option-valued subtraction.
- A Rust function returning Result is an Except value; a mutating
  method is a function from the receiver state to the new state.
-/

/-- Model of core::alloc::Layout: a size and alignment pair. -/
structure Layout where
  size : Nat
  align : Nat
deriving Repr, DecidableEq

/-- Model of error::TryReserveError (src/error.rs). -/
inductive TryReserveError where
  | capacityOverflow : TryReserveError
  | allocError (layout : Layout) : TryReserveError
deriving Repr, DecidableEq

/-- Model of the Display implementation for TryReserveError
(src/error.rs lines 61-72): it writes the common prefix and then the
variant-specific suffix. -/
def TryReserveError.display : TryReserveError → String
  | TryReserveError.capacityOverflow =>
      "memory allocation failed" ++
        " because the computed capacity exceeded the collection\x27s maximum"
  | TryReserveError.allocError _ =>
      "memory allocation failed" ++
        " because the memory allocator returned an error"

/-- Model of SliceVec (src/slice_vec.rs): a borrowed buffer of
possibly uninitialized slots together with a logical length. -/
structure SliceVec (α : Type) where
  buf : List (Option α)
  len : Nat
deriving Repr, DecidableEq

/-- Model of SliceVec::new: an entirely uninitialized buffer of n slots
and length 0. -/
def SliceVec.new (α : Type) (n : Nat) : SliceVec α :=
  { buf := List.replicate n none, len := 0 }

/-- Model of SliceVec::from_raw_parts. -/
def SliceVec.fromRawParts {α : Type} (buf : List (Option α)) (len : Nat) : SliceVec α :=
  { buf := buf, len := len }

/-- Model of SliceVec::into_raw_parts: decompose into (buffer, length). -/
def SliceVec.intoRawParts {α : Type} (v : SliceVec α) : List (Option α) × Nat :=
  (v.buf, v.len)

/-- Model of VecImpl::capacity for SliceVec: the buffer length. -/
def SliceVec.capacity {α : Type} (v : SliceVec α) : Nat :=
  v.buf.length

/-- Model of VecImpl::as_slice: the first len slots, viewed as
initialized. -/
def SliceVec.asSlice {α : Type} (v : SliceVec α) : List (Option α) :=
  v.buf.take v.len

/-- Unchecked usize subtraction (usize::unchecked_sub): undefined
behaviour, modelled as none, when the subtrahend exceeds the minuend. -/
def uncheckedSub (a b : Nat) : Option Nat :=
  if b ≤ a then some (a - b) else none

/-- Model of VecImpl::remaining (src/vec_impl.rs lines 36-40): the
unchecked subtraction capacity - len, none marking the undefined
behaviour of an underflowing unchecked_sub. -/
def SliceVec.remainingChecked {α : Type} (v : SliceVec α) : Option Nat :=
  uncheckedSub v.capacity v.len

/-- Model of VecImpl::needs_to_grow (src/vec_impl.rs lines 42-48),
which compares additional against remaining. -/
def SliceVec.needsToGrowChecked {α : Type} (v : SliceVec α) (additional : Nat) : Option Bool :=
  (v.remainingChecked).map (fun r => decide (additional > r))

/-- Model of VecImpl::as_remaining (src/vec_impl.rs lines 148-159): the
slots from len up to capacity, guarded by the same unchecked
subtraction of the lengths. -/
def SliceVec.asRemainingChecked {α : Type} (v : SliceVec α) : Option (List (Option α)) :=
  (uncheckedSub v.capacity v.len).map (fun _ => v.buf.drop v.len)

/-- Model of the Storage impls for slices (src/storage.rs lines
159-198) and of the VecImpl grow for SliceVec (src/slice_vec.rs lines
222-230): a borrowed region can never grow. -/
def SliceVec.grow {α : Type} (_v : SliceVec α) (_additional : Nat) : Except TryReserveError (SliceVec α) :=
  Except.error TryReserveError.capacityOverflow

/-- Model of VecImpl::push_unchecked (src/vec_impl.rs lines 178-191).
The source writes the item through as_ptr_mut().add(1) - buffer index
1, not index len - and then increments the length.  A List.set with an
out-of-range index leaves the list unchanged; in the source that case
is an out-of-bounds write (undefined behaviour). -/
def SliceVec.pushUnchecked {α : Type} (v : SliceVec α) (item : α) : SliceVec α :=
  { buf := v.buf.set 1 (some item), len := v.len + 1 }

/-- Model of VecImpl::try_push (src/vec_impl.rs lines 196-209): when
the vector is full attempt to grow by 1, returning the item together
with the error on failure; otherwise push unchecked. -/
def SliceVec.tryPush {α : Type} (v : SliceVec α) (item : α) :
    Except (α × TryReserveError) Unit × SliceVec α :=
  if v.len = v.capacity then
    match v.grow 1 with
    | Except.error e => (Except.error (item, e), v)
    | Except.ok v' => (Except.ok (), v'.pushUnchecked item)
  else
    (Except.ok (), v.pushUnchecked item)

/-- Model of VecImpl::pop_unchecked / pop (src/vec_impl.rs lines
222-246): when the length is positive, decrement it and read the slot
at the new length.  The outer Option is the pop result; the inner
Option is the slot content (none records a read of an uninitialized
slot, undefined behaviour in the source).  The slot the value was
moved out of is marked uninitialized. -/
def SliceVec.pop {α : Type} (v : SliceVec α) : Option (Option α) × SliceVec α :=
  if v.len > 0 then
    let l := v.len - 1
    (some (v.buf.getD l none), { buf := v.buf.set l none, len := l })
  else
    (none, v)

/-- Helper for truncate: mark the slots with index in [lo, hi) as
uninitialized (they are dropped in place by the source). -/
def clearRange {α : Type} (buf : List (Option α)) (lo hi : Nat) : List (Option α) :=
  buf.enum.map (fun p => if lo ≤ p.1 ∧ p.1 < hi then none else p.2)

/-- Model of VecImpl::truncate (src/vec_impl.rs lines 250-266): when
new_len < len, set the length first and then destroy the excluded
tail. -/
def SliceVec.truncate {α : Type} (v : SliceVec α) (newLen : Nat) : SliceVec α :=
  if newLen < v.len then
    { buf := clearRange v.buf newLen v.len, len := newLen }
  else
    v

/-- Model of VecImpl::clear (src/vec_impl.rs lines 270-272). -/
def SliceVec.clear {α : Type} (v : SliceVec α) : SliceVec α :=
  v.truncate 0

/-- Validity invariant of a vector state: the length is bounded by the
capacity, the slots below the length are live and the slots from the
length up are not (spec section 3, VectorEngine invariant). -/
def SliceVec.valid {α : Type} (v : SliceVec α) : Bool :=
  decide (v.len ≤ v.capacity) &&
    (v.buf.take v.len).all (fun s => s.isSome) &&
    (v.buf.drop v.len).all (fun s => s.isNone)

/-- Wrapping usize subtraction (usize::wrapping_sub), for operands
below 2 ^ 64. -/
def usizeWrappingSub (a b : Nat) : Nat :=
  (a + 2 ^ 64 - b % 2 ^ 64) % 2 ^ 64

/-- Model of Storage::needs_to_grow (src/storage.rs lines 44-48): the
source compares additional against capacity.wrapping_sub(len). -/
def Storage.needsToGrow (capacity len additional : Nat) : Bool :=
  decide (additional > usizeWrappingSub capacity len)

/-- Formula of claim C6, written from the words of the spec: additional
compared against the saturating difference capacity - len (Nat
subtraction saturates at zero). -/
def needsToGrowSaturating (capacity len additional : Nat) : Bool :=
  decide (additional > capacity - len)

/-- C8: the rendered description of a reservation error is exactly the
capacity-overflow sentence for CapacityOverflow and exactly the
allocator sentence for AllocError, and every error renders to one of
these two strings. -/
theorem TryReserveError.display_exact :
    TryReserveError.capacityOverflow.display =
        "memory allocation failed because the computed capacity exceeded the collection\x27s maximum" ∧
      (∀ l : Layout, (TryReserveError.allocError l).display =
        "memory allocation failed because the memory allocator returned an error") ∧
      (∀ e : TryReserveError,
        e.display =
            "memory allocation failed because the computed capacity exceeded the collection\x27s maximum" ∨
          e.display =
            "memory allocation failed because the memory allocator returned an error") := by
  refine ⟨rfl, fun _ => rfl, fun e => ?_⟩
  cases e with
  | capacityOverflow => exact Or.inl rfl
  | allocError l => exact Or.inr rfl

/-- C9: decomposing a SliceVec with into_raw_parts and rebuilding it
with from_raw_parts on the same buffer and length yields the identical
vector, in particular one with the same length, capacity and
initialized contents. -/
theorem SliceVec.raw_parts_roundtrip {α : Type} (v : SliceVec α) :
    SliceVec.fromRawParts v.intoRawParts.1 v.intoRawParts.2 = v ∧
      (SliceVec.fromRawParts v.intoRawParts.1 v.intoRawParts.2).len = v.len ∧
      (SliceVec.fromRawParts v.intoRawParts.1 v.intoRawParts.2).capacity = v.capacity ∧
      (SliceVec.fromRawParts v.intoRawParts.1 v.intoRawParts.2).asSlice = v.asSlice :=
  ⟨rfl, rfl, rfl, rfl⟩

/-- C10: under the invariant len ≤ capacity, the unchecked subtraction
inside remaining never underflows, so remaining, needs_to_grow and
as_remaining are all well defined (the undefined-behaviour branch,
modelled as none, is never taken). -/
theorem SliceVec.unchecked_sub_total {α : Type} (v : SliceVec α) (additional : Nat)
    (h : v.len ≤ v.capacity) :
    v.remainingChecked = some (v.capacity - v.len) ∧
      v.needsToGrowChecked additional = some (decide (additional > v.capacity - v.len)) ∧
      v.asRemainingChecked = some (v.buf.drop v.len) := by
  unfold SliceVec.remainingChecked SliceVec.needsToGrowChecked SliceVec.asRemainingChecked
  simp [uncheckedSub, h, SliceVec.remainingChecked]

/-- Witness for C10 at a concrete vector with one live slot out of
three. -/
theorem SliceVec.unchecked_sub_total_witness :
    (SliceVec.fromRawParts [some 7, none, none] 1).len ≤
        (SliceVec.fromRawParts [some 7, none, none] 1).capacity ∧
      (SliceVec.fromRawParts [some 7, none, none] 1).remainingChecked = some 2 ∧
        (SliceVec.fromRawParts [some 7, none, none] 1).needsToGrowChecked 3 = some true ∧
        (SliceVec.fromRawParts [some 7, none, none] 1).asRemainingChecked = some [none, none] :=
  ⟨by decide,
    SliceVec.unchecked_sub_total (SliceVec.fromRawParts [some 7, none, none] 1) 3 (by decide)⟩

/-- C3: pushing into a full fixed-capacity vector (len = capacity over
a borrowed region) returns the original item paired with
CapacityOverflow and leaves the vector - length, capacity and
contents - unchanged. -/
theorem SliceVec.tryPush_full {α : Type} (v : SliceVec α) (x : α) (h : v.len = v.capacity) :
    v.tryPush x = (Except.error (x, TryReserveError.capacityOverflow), v) ∧
      (v.tryPush x).2.len = v.len ∧
      (v.tryPush x).2.capacity = v.capacity ∧
      (v.tryPush x).2.asSlice = v.asSlice := by
  unfold SliceVec.tryPush SliceVec.grow
  simp [h]

/-- Witness for C3: a full one-slot vector rejects a push and keeps its
element. -/
theorem SliceVec.tryPush_full_witness :
    (SliceVec.fromRawParts [some 1] 1).len = (SliceVec.fromRawParts [some 1] 1).capacity ∧
      (SliceVec.fromRawParts [some 1] 1).tryPush 7 =
        (Except.error (7, TryReserveError.capacityOverflow), SliceVec.fromRawParts [some 1] 1) :=
  ⟨by decide, (SliceVec.tryPush_full (SliceVec.fromRawParts [some 1] 1) 7 (by decide)).1⟩

/-- C1: evaluation of the code at the failing input.  On an empty
two-slot vector, try_push succeeds but writes the item into buffer
slot 1 - the source writes through as_ptr_mut().add(1) instead of
add(len) - so slot 0, the slot the incremented length claims to be
live, stays uninitialized, and the subsequent pop reads the
uninitialized slot 0 instead of returning the pushed item. -/
theorem SliceVec.push_writes_wrong_slot :
    (SliceVec.new Nat 2).tryPush 5 =
        (Except.ok (), SliceVec.fromRawParts [none, some 5] 1) ∧
      ((SliceVec.fromRawParts [none, some 5] 1).pop).1 = some none := by
  constructor
  · rfl
  · rfl

/-- C2: evaluation of the code at the failing input.  A fresh two-slot
vector satisfies the liveness invariant; after one try_push it no
longer does: the length is 1 but slot 0 is uninitialized while slot 1
holds the value. -/
theorem SliceVec.push_breaks_invariant :
    (SliceVec.new Nat 2).valid = true ∧
      ((SliceVec.new Nat 2).tryPush 5).2 = SliceVec.fromRawParts [none, some 5] 1 ∧
      ((SliceVec.new Nat 2).tryPush 5).2.valid = false := by
  refine ⟨by decide, rfl, by decide⟩

/-- C6: counterexample to the claim as stated: with capacity 0, len 1
and additional 1 the saturating formula of the claim yields true, but
the code compares against the wrapping difference and yields false. -/
theorem Storage.needsToGrow_not_saturating :
    Storage.needsToGrow 0 1 1 = false ∧ needsToGrowSaturating 0 1 1 = true := by
  constructor
  · decide
  · decide

/-- C6 (amended): needs_to_grow compares additional against the
wrapping difference capacity.wrapping_sub(len); whenever len ≤
capacity < 2 ^ 64 this agrees with the saturating formula of the
claim. -/
theorem Storage.needsToGrow_eq_saturating (capacity len additional : Nat)
    (hcap : capacity < 2 ^ 64) (hle : len ≤ capacity) :
    Storage.needsToGrow capacity len additional =
      needsToGrowSaturating capacity len additional := by
  unfold Storage.needsToGrow needsToGrowSaturating usizeWrappingSub
  have hlen : len % 2 ^ 64 = len := Nat.mod_eq_of_lt (lt_of_le_of_lt hle hcap)
  rw [hlen]
  have hmod : (capacity + 2 ^ 64 - len) % 2 ^ 64 = capacity - len := by
    omega
  rw [hmod]

/-- Witness for C6 (amended) at capacity 5, len 3, additional 4. -/
theorem Storage.needsToGrow_eq_saturating_witness :
    5 < 2 ^ 64 ∧ (3 : Nat) ≤ 5 ∧
      Storage.needsToGrow 5 3 4 = needsToGrowSaturating 5 3 4 :=
  ⟨by decide, by decide, Storage.needsToGrow_eq_saturating 5 3 4 (by decide) (by decide)⟩

/-- Model of VecImpl::try_reserve (src/vec_impl.rs lines 50-65) and
Storage::try_reserve (src/storage.rs lines 70-81), generic over the
state type and over the needs_to_grow and grow methods of the trait
implementation, exactly as the trait-level source is: grow is invoked
only inside the branch guarded by needs_to_grow.  The Bool component
records whether grow was invoked. -/
def tryReserveG {σ : Type} (needs : σ → Nat → Bool)
    (grow : σ → Nat → Except TryReserveError σ) (s : σ) (additional : Nat) :
    Except TryReserveError σ × Bool :=
  if needs s additional then
    match grow s additional with
    | Except.error e => (Except.error e, true)
    | Except.ok s' => (Except.ok s', true)
  else
    (Except.ok s, false)

/-- Model of VecImpl::try_reserve_exact (src/vec_impl.rs lines 67-82)
and Storage::try_reserve_exact (src/storage.rs lines 83-94): the same
body with grow_exact in place of grow. -/
def tryReserveExactG {σ : Type} (needs : σ → Nat → Bool)
    (growExact : σ → Nat → Except TryReserveError σ) (s : σ) (additional : Nat) :
    Except TryReserveError σ × Bool :=
  if needs s additional then
    match growExact s additional with
    | Except.error e => (Except.error e, true)
    | Except.ok s' => (Except.ok s', true)
  else
    (Except.ok s, false)

/-- C7: try_reserve and try_reserve_exact invoke grow (respectively
grow_exact) only when needs_to_grow holds beforehand, and - provided
grow and grow_exact meet their contract of leaving no further need to
grow on success, the property the debug assertion of the source checks
- whenever they return success, needs_to_grow is false afterwards. -/
theorem tryReserve_grow_only_when_needed {σ : Type} (needs : σ → Nat → Bool)
    (grow growExact : σ → Nat → Except TryReserveError σ) (s : σ) (additional : Nat)
    (hg : ∀ s', grow s additional = Except.ok s' → needs s' additional = false)
    (hge : ∀ s', growExact s additional = Except.ok s' → needs s' additional = false) :
    ((tryReserveG needs grow s additional).2 = true → needs s additional = true) ∧
      (∀ s', (tryReserveG needs grow s additional).1 = Except.ok s' →
        needs s' additional = false) ∧
      ((tryReserveExactG needs growExact s additional).2 = true →
        needs s additional = true) ∧
      (∀ s', (tryReserveExactG needs growExact s additional).1 = Except.ok s' →
        needs s' additional = false) := by
  unfold tryReserveG tryReserveExactG
  by_cases hn : needs s additional = true
  · rw [if_pos hn, if_pos hn]
    refine ⟨?_, ?_, ?_, ?_⟩
    · intro _; exact hn
    · intro s' h'
      cases hgr : grow s additional with
      | error e => rw [hgr] at h'; exact absurd h' (by simp)
      | ok s'' =>
          rw [hgr] at h'
          simp only at h'
          cases h'
          exact hg _ hgr
    · intro _; exact hn
    · intro s' h'
      cases hgr : growExact s additional with
      | error e => rw [hgr] at h'; exact absurd h' (by simp)
      | ok s'' =>
          rw [hgr] at h'
          simp only at h'
          cases h'
          exact hge _ hgr
  · rw [if_neg hn, if_neg hn]
    refine ⟨?_, ?_, ?_, ?_⟩
    · intro h'; exact absurd h' (by simp)
    · intro s' h'
      simp only at h'
      cases h'
      exact Bool.not_eq_true _ ▸ (Bool.of_not_eq_true hn)
    · intro h'; exact absurd h' (by simp)
    · intro s' h'
      simp only at h'
      cases h'
      exact Bool.not_eq_true _ ▸ (Bool.of_not_eq_true hn)

/-- Concrete needs_to_grow instance used by the C7 witness: the
VecImpl formula specialized to a SliceVec with a valid length. -/
def needsDemo : SliceVec Nat → Nat → Bool :=
  fun v additional => decide (additional > v.capacity - v.len)

/-- Witness for C7: instantiated with the SliceVec implementation
(grow always fails) on a fresh three-slot vector asking for two more
slots, success indeed leaves needs_to_grow false. -/
theorem tryReserve_grow_only_when_needed_witness :
    needsDemo (SliceVec.new Nat 3) 2 = false :=
  (tryReserve_grow_only_when_needed needsDemo SliceVec.grow SliceVec.grow
      (SliceVec.new Nat 3) 2
      (fun _ h => by simp [SliceVec.grow] at h)
      (fun _ h => by simp [SliceVec.grow] at h)).2.1
    (SliceVec.new Nat 3) rfl

/-- Result of a run of fill_cloned: the final slice contents, the
indices destroyed by the cleanup guard (in destruction order; empty on
success), and whether the fill completed without a panic. -/
structure FillResult (α : Type) where
  slots : List (Option α)
  cleaned : List Nat
  ok : Bool
deriving Repr, DecidableEq

/-- Model of the loop of Uninit::fill_cloned over the rest slots
(src/uninit.rs lines 248-252).  The iteration for slot i writes the
result of the i-th clone call and bumps the initialized counter of the
guard; a failing clone (modelled as none) panics with the counter
equal to i, reported through the error value.  The fuel argument is
the number of rest slots still to fill. -/
def fillRestLoop {α : Type} (clones : Nat → Option α) (i : Nat) :
    Nat → Except Nat (List α)
  | 0 => Except.ok []
  | Nat.succ k =>
    match clones i with
    | none => Except.error i
    | some c =>
      match fillRestLoop clones (i + 1) k with
      | Except.error j => Except.error j
      | Except.ok rest => Except.ok (c :: rest)

/-- Model of Uninit::fill_cloned (src/uninit.rs lines 239-264) over n
slots: split_last separates the last slot, the loop clones the value
into the rest slots left to right, and the last slot receives the
original value.  On a panic the guard (src/uninit.rs lines 347-359)
drops exactly the slots below the initialized counter, in index order,
leaving every slot uninitialized again. -/
def fillCloned {α : Type} (value : α) (clones : Nat → Option α) : Nat → FillResult α
  | 0 => { slots := [], cleaned := [], ok := true }
  | Nat.succ m =>
    match fillRestLoop clones 0 m with
    | Except.ok rest =>
        { slots := rest.map some ++ [some value], cleaned := [], ok := true }
    | Except.error i =>
        { slots := List.replicate (m + 1) none, cleaned := List.range i, ok := false }

/-- The rest loop succeeds and produces exactly the clone results, in
slot order, when every clone call succeeds. -/
theorem fillRestLoop_ok {α : Type} (clones : Nat → Option α) :
    ∀ (k i : Nat), (∀ j, j < k → (clones (i + j)).isSome) →
      ∃ rest, fillRestLoop clones i k = Except.ok rest ∧
        rest.map some = (List.range k).map (fun j => clones (i + j)) := by
  intro k
  induction k with
  | zero => intro i _; exact ⟨[], rfl, by simp⟩
  | succ k ih =>
    intro i h
    have h0 : (clones i).isSome := by simpa using h 0 (Nat.succ_pos k)
    obtain ⟨c, hc⟩ := Option.isSome_iff_exists.mp h0
    obtain ⟨rest, hrest, hmap⟩ := ih (i + 1)
      (fun j hj => by
        have := h (j + 1) (Nat.succ_lt_succ hj)
        simpa [Nat.add_assoc, Nat.add_comm 1 j] using this)
    refine ⟨c :: rest, ?_, ?_⟩
    · unfold fillRestLoop
      rw [hc, hrest]
    · rw [List.range_succ_eq_map, List.map_cons, List.map_cons, hmap, List.map_map]
      congr 1
      · rw [Nat.add_zero]
        exact hc.symm
      · refine List.map_congr_left (fun j _ => ?_)
        simp only [Function.comp_apply]
        exact congrArg clones (by omega)

/-- The rest loop panics exactly at the first failing clone call. -/
theorem fillRestLoop_fails {α : Type} (clones : Nat → Option α) :
    ∀ (k i t : Nat), (∀ j, i ≤ j → j < t → (clones j).isSome) → clones t = none →
      i ≤ t → t < i + k → fillRestLoop clones i k = Except.error t := by
  intro k
  induction k with
  | zero => intro i t _ _ hit hlt; omega
  | succ k ih =>
    intro i t hsome hnone hit hlt
    by_cases hi : i = t
    · subst hi
      unfold fillRestLoop
      rw [hnone]
    · have hit' : i < t := Nat.lt_of_le_of_ne hit hi
      have h0 : (clones i).isSome := hsome i (Nat.le_refl i) hit'
      obtain ⟨c, hc⟩ := Option.isSome_iff_exists.mp h0
      have hrec : fillRestLoop clones (i + 1) k = Except.error t :=
        ih (i + 1) t (fun j hj hjt => hsome j (Nat.le_of_succ_le hj) hjt) hnone
          hit' (by omega)
      unfold fillRestLoop
      rw [hc, hrec]

/-- C5 (amended): fill_cloned writes the duplicates left to right with
the last slot receiving the original value; when the clone for slot i
fails, the guard destroys exactly the already-written slots, indices 0
through i - 1, in order - in particular a failure at element index 3
of 5 yields exactly 3 cleanup destructions, of indices 0, 1 and 2. -/
theorem fillCloned_spec {α : Type} (value : α) (clones : Nat → Option α) (m i : Nat) :
    ((∀ j, j < m → (clones j).isSome) →
        (fillCloned value clones (m + 1)).slots =
            (List.range m).map (fun j => clones j) ++ [some value] ∧
          (fillCloned value clones (m + 1)).cleaned = [] ∧
          (fillCloned value clones (m + 1)).ok = true) ∧
      ((∀ j, j < i → (clones j).isSome) → clones i = none → i < m →
        (fillCloned value clones (m + 1)).cleaned = List.range i ∧
          (fillCloned value clones (m + 1)).ok = false) ∧
      (fillCloned (0 : Nat) (fun j => if j = 3 then none else some 0) 5).cleaned =
        [0, 1, 2] := by
  refine ⟨?_, ?_, by decide⟩
  · intro h
    obtain ⟨rest, hrest, hmap⟩ :=
      fillRestLoop_ok clones m 0 (fun j hj => by simpa using h j hj)
    simp only [fillCloned, hrest]
    refine ⟨?_, trivial, trivial⟩
    rw [hmap]
    simp
  · intro hsome hnone him
    have hfail : fillRestLoop clones 0 m = Except.error i :=
      fillRestLoop_fails clones m 0 i (fun j _ hj => hsome j hj) hnone
        (Nat.zero_le i) (by omega)
    simp only [fillCloned, hfail]
    exact ⟨trivial, trivial⟩

/-- Witness for C5: a fill of three slots where every clone succeeds,
and a fill of five slots whose clone for slot 3 fails, destroying
slots 0, 1 and 2. -/
theorem fillCloned_spec_witness :
    (fillCloned (1 : Nat) (fun _ => some 1) 3).slots = [some 1, some 1, some 1] ∧
      (fillCloned (0 : Nat) (fun j => if j = 3 then none else some 0) 5).cleaned =
        [0, 1, 2] ∧
      (fillCloned (0 : Nat) (fun j => if j = 3 then none else some 0) 5).ok = false :=
  ⟨((fillCloned_spec 1 (fun _ => some 1) 2 0).1 (fun _ _ => rfl)).1,
    ((fillCloned_spec 0 (fun j => if j = 3 then none else some 0) 4 3).2.1
        (by decide) (by decide) (by decide)).1,
    ((fillCloned_spec 0 (fun j => if j = 3 then none else some 0) 4 3).2.1
        (by decide) (by decide) (by decide)).2⟩

/-- C5 counterexample: the claim says a duplication failure at element
index 3 of 5 yields exactly 2 cleanup destructions, of indices 0 and
1; the code destroys the 3 already-written slots 0, 1 and 2. -/
theorem fillCloned_fail_at_three_cleans_three :
    (fillCloned (0 : Nat) (fun j => if j = 3 then none else some 0) 5).cleaned ≠ [0, 1] ∧
      (fillCloned (0 : Nat) (fun j => if j = 3 then none else some 0) 5).cleaned.length = 3 := by
  constructor
  · decide
  · decide

/-- Exit of one process_loop pass of retain_mut (src/vec.rs lines
320-354): completed the whole range, broke out on the first deletion
(the pass with DELETED = false), or aborted because the predicate
panicked. -/
inductive LoopExit where
  | completed : LoopExit
  | broke : LoopExit
  | aborted : LoopExit
deriving Repr, DecidableEq

/-- State of the BackshiftOnDrop guard of retain_mut (src/vec.rs lines
285-318), enriched with a log of the values passed to drop_in_place.
The buffer holds the first original_len slots of the vector, all
initialized at entry; moved-from slots keep their stale value, exactly
as the bytes do in the source. -/
structure BackshiftState (α : Type) where
  buf : List α
  processedLen : Nat
  deletedCnt : Nat
  originalLen : Nat
  destroyed : List α
deriving Repr, DecidableEq

/-- Model of process_loop of retain_mut (src/vec.rs lines 320-354).
The predicate yields none when it panics (aborts the pass).  On a
rejected element the counters advance, the element is dropped in
place (logged), and the pass continues when DELETED and breaks
otherwise; on an accepted element the pass moves it back by
deleted_cnt slots when DELETED.  The fuel argument bounds the
iteration count; original_len iterations always suffice. -/
def processLoop {α : Type} [Inhabited α] (f : α → Option Bool) (deletedFlag : Bool) :
    Nat → BackshiftState α → BackshiftState α × LoopExit
  | 0, g => (g, LoopExit.completed)
  | Nat.succ fuel, g =>
    if g.processedLen = g.originalLen then (g, LoopExit.completed)
    else
      let cur := g.buf.getD g.processedLen default
      match f cur with
      | none => (g, LoopExit.aborted)
      | some false =>
        let g' : BackshiftState α :=
          { g with processedLen := g.processedLen + 1,
                   deletedCnt := g.deletedCnt + 1,
                   destroyed := g.destroyed ++ [cur] }
        if deletedFlag then processLoop f deletedFlag fuel g'
        else (g', LoopExit.broke)
      | some true =>
        let g' : BackshiftState α :=
          if deletedFlag then
            { g with buf := g.buf.set (g.processedLen - g.deletedCnt) cur }
          else g
        processLoop f deletedFlag fuel
          { g' with processedLen := g.processedLen + 1 }

/-- Model of ptr::copy (memmove): copy cnt slots starting at index src
onto index dst, reading from the buffer as it was before the copy. -/
def ptrCopy {α : Type} (buf : List α) (src dst cnt : Nat) : List α :=
  buf.take dst ++ (buf.drop src).take cnt ++ buf.drop (dst + cnt)

/-- Model of the Drop impl of BackshiftOnDrop (src/vec.rs lines
292-311): when deletions happened, shift the unprocessed tail left by
deleted_cnt to close the gap, then set the length to original_len -
deleted_cnt.  It runs on every exit, normal or panicking. -/
def backshiftDrop {α : Type} (g : BackshiftState α) : List α × Nat :=
  let buf :=
    if g.deletedCnt > 0 then
      ptrCopy g.buf g.processedLen (g.processedLen - g.deletedCnt)
        (g.originalLen - g.processedLen)
    else g.buf
  (buf, g.originalLen - g.deletedCnt)

/-- Observable outcome of a retain_mut run: the live elements at exit,
the final length, the values destroyed by drop_in_place, and the final
deletion counter. -/
structure RetainResult (α : Type) where
  elems : List α
  len : Nat
  destroyed : List α
  deletedCnt : Nat
deriving Repr, DecidableEq

/-- The guard state reached by the loop phase of retain_mut
(src/vec.rs lines 277-360): the length is zeroed, the pass with
DELETED = false runs, then unless it aborted the pass with DELETED =
true runs. -/
def retainRun {α : Type} [Inhabited α] (f : α → Option Bool) (elems : List α) :
    BackshiftState α :=
  let originalLen := elems.length
  let g0 : BackshiftState α :=
    { buf := elems, processedLen := 0, deletedCnt := 0,
      originalLen := originalLen, destroyed := [] }
  let r1 := processLoop f false originalLen g0
  match r1.2 with
  | LoopExit.aborted => r1.1
  | _ => (processLoop f true originalLen r1.1).1

/-- Model of VecImpl::retain_mut (src/vec.rs lines 277-360) acting on
the live elements of a valid vector: the loop phase runs, and the
guard drop runs unconditionally at exit - also when the predicate
panicked.  The returned elems are the slots below the final length. -/
def retainMut {α : Type} [Inhabited α] (f : α → Option Bool) (elems : List α) :
    RetainResult α :=
  let g2 := retainRun f elems
  let dropped := backshiftDrop g2
  { elems := dropped.1.take dropped.2, len := dropped.2,
    destroyed := g2.destroyed, deletedCnt := g2.deletedCnt }

/-- Model of VecImpl::retain (src/vec.rs lines 362-365): retain_mut
through the read-only predicate adapter; a total predicate never
panics. -/
def retainTotal {α : Type} [Inhabited α] (f : α → Bool) (elems : List α) :
    RetainResult α :=
  retainMut (fun x => some (f x)) elems

/-- Elements of a list the predicate accepts (evaluates to some true). -/
def acceptedBy {α : Type} (f : α → Option Bool) (l : List α) : List α :=
  l.filter (fun x => decide (f x = some true))

/-- Elements of a list the predicate rejects (evaluates to some false). -/
def rejectedBy {α : Type} (f : α → Option Bool) (l : List α) : List α :=
  l.filter (fun x => decide (f x = some false))

/-- Lists agreeing from position p on agree at position p, whatever the
default. -/
theorem getD_eq_of_drop_eq {α : Type} {l₁ l₂ : List α} {p : Nat}
    (h : l₁.drop p = l₂.drop p) (d : α) : l₁.getD p d = l₂.getD p d := by
  have h0 : l₁[p]? = l₂[p]? := by
    have := congrArg (fun l => l[0]?) h
    simpa [List.getElem?_drop] using this
  simp [List.getD_eq_getElem?_getD, h0]

/-- Take of one more element, spelled with getD. -/
theorem take_succ_getD {α : Type} {l : List α} {p : Nat} (h : p < l.length) (d : α) :
    l.take (p + 1) = l.take p ++ [l.getD p d] := by
  rw [List.take_succ, List.getElem?_eq_getElem h]
  simp [List.getD_eq_getElem?_getD, List.getElem?_eq_getElem h]

/-- Invariant tying a guard state of retain_mut to the predicate and
the original elements: the counters are in range, the compacted prefix
holds exactly the accepted processed elements, the unprocessed tail is
untouched, the drop log holds exactly the rejected processed elements,
deleted_cnt counts them, and every processed element was decided by
the predicate. -/
structure RetainInv {α : Type} (f : α → Option Bool) (elems : List α)
    (g : BackshiftState α) : Prop where
  hbuf : g.buf.length = elems.length
  horig : g.originalLen = elems.length
  hdel : g.deletedCnt ≤ g.processedLen
  hproc : g.processedLen ≤ g.originalLen
  hpre : g.buf.take (g.processedLen - g.deletedCnt) =
    acceptedBy f (elems.take g.processedLen)
  htail : g.buf.drop g.processedLen = elems.drop g.processedLen
  hdest : g.destroyed = rejectedBy f (elems.take g.processedLen)
  hcnt : g.deletedCnt = (rejectedBy f (elems.take g.processedLen)).length
  hsome : ∀ x ∈ elems.take g.processedLen, f x ≠ none

/-- Splitting acceptedBy over an append. -/
theorem acceptedBy_append {α : Type} (f : α → Option Bool) (l₁ l₂ : List α) :
    acceptedBy f (l₁ ++ l₂) = acceptedBy f l₁ ++ acceptedBy f l₂ := by
  simp [acceptedBy]

/-- Splitting rejectedBy over an append. -/
theorem rejectedBy_append {α : Type} (f : α → Option Bool) (l₁ l₂ : List α) :
    rejectedBy f (l₁ ++ l₂) = rejectedBy f l₁ ++ rejectedBy f l₂ := by
  simp [rejectedBy]

/-- A rejected element is kept by rejectedBy and dropped by
acceptedBy. -/
theorem filter_singleton_reject {α : Type} {f : α → Option Bool} {a : α}
    (hf : f a = some false) :
    acceptedBy f [a] = [] ∧ rejectedBy f [a] = [a] := by
  constructor
  · simp [acceptedBy, hf]
  · simp [rejectedBy, hf]

/-- An accepted element is kept by acceptedBy and dropped by
rejectedBy. -/
theorem filter_singleton_accept {α : Type} {f : α → Option Bool} {a : α}
    (hf : f a = some true) :
    acceptedBy f [a] = [a] ∧ rejectedBy f [a] = [] := by
  constructor
  · simp [acceptedBy, hf]
  · simp [rejectedBy, hf]

/-- The invariant is preserved by one rejection step. -/
theorem RetainInv.reject {α : Type} [Inhabited α] {f : α → Option Bool} {elems : List α}
    {g : BackshiftState α} (hg : RetainInv f elems g)
    (hpe : g.processedLen ≠ g.originalLen)
    (hf : f (g.buf.getD g.processedLen default) = some false) :
    RetainInv f elems
      { g with processedLen := g.processedLen + 1,
               deletedCnt := g.deletedCnt + 1,
               destroyed := g.destroyed ++ [g.buf.getD g.processedLen default] } := by
  obtain ⟨hbuf, horig, hdel, hproc, hpre, htail, hdest, hcnt, hsome⟩ := hg
  set cur := g.buf.getD g.processedLen default with hcurdef
  have hplt : g.processedLen < elems.length := by omega
  have hcur : cur = elems.getD g.processedLen default := by
    rw [hcurdef]
    exact getD_eq_of_drop_eq htail default
  have htake1 : elems.take (g.processedLen + 1) = elems.take g.processedLen ++ [cur] := by
    rw [hcur]
    exact take_succ_getD hplt default
  have hdrop1 : g.buf.drop (g.processedLen + 1) = elems.drop (g.processedLen + 1) := by
    have h2 := congrArg (List.drop 1) htail
    simpa [List.drop_drop] using h2
  refine ⟨hbuf, horig, ?_, ?_, ?_, hdrop1, ?_, ?_, ?_⟩
  · show g.deletedCnt + 1 ≤ g.processedLen + 1
    omega
  · show g.processedLen + 1 ≤ g.originalLen
    omega
  · show g.buf.take (g.processedLen + 1 - (g.deletedCnt + 1)) =
      acceptedBy f (elems.take (g.processedLen + 1))
    have h3 : g.processedLen + 1 - (g.deletedCnt + 1) =
        g.processedLen - g.deletedCnt := by omega
    rw [h3, htake1, acceptedBy_append, (filter_singleton_reject hf).1,
      List.append_nil]
    exact hpre
  · show g.destroyed ++ [cur] = rejectedBy f (elems.take (g.processedLen + 1))
    rw [htake1, rejectedBy_append, (filter_singleton_reject hf).2, hdest]
  · show g.deletedCnt + 1 = (rejectedBy f (elems.take (g.processedLen + 1))).length
    rw [htake1, rejectedBy_append, (filter_singleton_reject hf).2,
      List.length_append]
    simp [hcnt]
  · show ∀ x ∈ elems.take (g.processedLen + 1), f x ≠ none
    intro x hx
    rw [htake1] at hx
    rcases List.mem_append.mp hx with hx | hx
    · exact hsome x hx
    · rcases List.mem_singleton.mp hx with rfl
      rw [hf]
      exact fun h => nomatch h

/-- The invariant is preserved by one accepting step of the DELETED
pass, which moves the element back by deleted_cnt slots. -/
theorem RetainInv.acceptMove {α : Type} [Inhabited α] {f : α → Option Bool}
    {elems : List α} {g : BackshiftState α} (hg : RetainInv f elems g)
    (hpe : g.processedLen ≠ g.originalLen)
    (hf : f (g.buf.getD g.processedLen default) = some true) :
    RetainInv f elems
      { g with buf := g.buf.set (g.processedLen - g.deletedCnt)
                 (g.buf.getD g.processedLen default),
               processedLen := g.processedLen + 1 } := by
  obtain ⟨hbuf, horig, hdel, hproc, hpre, htail, hdest, hcnt, hsome⟩ := hg
  set cur := g.buf.getD g.processedLen default with hcurdef
  have hplt : g.processedLen < elems.length := by omega
  have hcur : cur = elems.getD g.processedLen default := by
    rw [hcurdef]
    exact getD_eq_of_drop_eq htail default
  have htake1 : elems.take (g.processedLen + 1) = elems.take g.processedLen ++ [cur] := by
    rw [hcur]
    exact take_succ_getD hplt default
  have hdlt : g.processedLen - g.deletedCnt < g.buf.length := by omega
  refine ⟨?_, horig, ?_, ?_, ?_, ?_, ?_, ?_, ?_⟩
  · show (g.buf.set (g.processedLen - g.deletedCnt) cur).length = elems.length
    rw [List.length_set]
    exact hbuf
  · show g.deletedCnt ≤ g.processedLen + 1
    omega
  · show g.processedLen + 1 ≤ g.originalLen
    omega
  · show (g.buf.set (g.processedLen - g.deletedCnt) cur).take
        (g.processedLen + 1 - g.deletedCnt) =
      acceptedBy f (elems.take (g.processedLen + 1))
    have hidx : g.processedLen + 1 - g.deletedCnt =
        (g.processedLen - g.deletedCnt) + 1 := by omega
    have hdlt2 : g.processedLen - g.deletedCnt <
        (g.buf.set (g.processedLen - g.deletedCnt) cur).length := by
      rw [List.length_set]
      omega
    rw [hidx, take_succ_getD hdlt2 default]
    have h1 : (g.buf.set (g.processedLen - g.deletedCnt) cur).take
        (g.processedLen - g.deletedCnt) = g.buf.take (g.processedLen - g.deletedCnt) := by
      rw [List.set_take]
      refine List.set_eq_of_length_le ?_
      rw [List.length_take]
      exact Nat.min_le_left _ _
    have h2 : (g.buf.set (g.processedLen - g.deletedCnt) cur).getD
        (g.processedLen - g.deletedCnt) default = cur := by
      rw [List.getD_eq_getElem?_getD, List.getElem?_set_self hdlt]
      rfl
    rw [h1, h2, htake1, acceptedBy_append, (filter_singleton_accept hf).1, hpre]
  · show (g.buf.set (g.processedLen - g.deletedCnt) cur).drop (g.processedLen + 1) =
      elems.drop (g.processedLen + 1)
    rw [List.drop_set, if_pos (by omega : g.processedLen - g.deletedCnt <
      g.processedLen + 1)]
    have h2 := congrArg (List.drop 1) htail
    simpa [List.drop_drop] using h2
  · show g.destroyed = rejectedBy f (elems.take (g.processedLen + 1))
    rw [htake1, rejectedBy_append, (filter_singleton_accept hf).2,
      List.append_nil]
    exact hdest
  · show g.deletedCnt = (rejectedBy f (elems.take (g.processedLen + 1))).length
    rw [htake1, rejectedBy_append, (filter_singleton_accept hf).2,
      List.append_nil]
    exact hcnt
  · show ∀ x ∈ elems.take (g.processedLen + 1), f x ≠ none
    intro x hx
    rw [htake1] at hx
    rcases List.mem_append.mp hx with hx | hx
    · exact hsome x hx
    · rcases List.mem_singleton.mp hx with rfl
      rw [hf]
      exact fun h => nomatch h

/-- The invariant is preserved by one accepting step of the first
(no-deletions-yet) pass, which leaves the element in place. -/
theorem RetainInv.acceptStay {α : Type} [Inhabited α] {f : α → Option Bool}
    {elems : List α} {g : BackshiftState α} (hg : RetainInv f elems g)
    (hpe : g.processedLen ≠ g.originalLen) (hd0 : g.deletedCnt = 0)
    (hf : f (g.buf.getD g.processedLen default) = some true) :
    RetainInv f elems { g with processedLen := g.processedLen + 1 } := by
  obtain ⟨hbuf, horig, hdel, hproc, hpre, htail, hdest, hcnt, hsome⟩ := hg
  set cur := g.buf.getD g.processedLen default with hcurdef
  have hplt : g.processedLen < elems.length := by omega
  have hcur : cur = elems.getD g.processedLen default := by
    rw [hcurdef]
    exact getD_eq_of_drop_eq htail default
  have htake1 : elems.take (g.processedLen + 1) = elems.take g.processedLen ++ [cur] := by
    rw [hcur]
    exact take_succ_getD hplt default
  refine ⟨hbuf, horig, ?_, ?_, ?_, ?_, ?_, ?_, ?_⟩
  · show g.deletedCnt ≤ g.processedLen + 1
    omega
  · show g.processedLen + 1 ≤ g.originalLen
    omega
  · show g.buf.take (g.processedLen + 1 - g.deletedCnt) =
      acceptedBy f (elems.take (g.processedLen + 1))
    have hidx : g.processedLen + 1 - g.deletedCnt = g.processedLen + 1 := by omega
    have hidx0 : g.processedLen - g.deletedCnt = g.processedLen := by omega
    rw [hidx0] at hpre
    rw [hidx, take_succ_getD (by omega : g.processedLen < g.buf.length) default,
      ← hcurdef, htake1, acceptedBy_append, (filter_singleton_accept hf).1, hpre]
  · show g.buf.drop (g.processedLen + 1) = elems.drop (g.processedLen + 1)
    have h2 := congrArg (List.drop 1) htail
    simpa [List.drop_drop] using h2
  · show g.destroyed = rejectedBy f (elems.take (g.processedLen + 1))
    rw [htake1, rejectedBy_append, (filter_singleton_accept hf).2,
      List.append_nil]
    exact hdest
  · show g.deletedCnt = (rejectedBy f (elems.take (g.processedLen + 1))).length
    rw [htake1, rejectedBy_append, (filter_singleton_accept hf).2,
      List.append_nil]
    exact hcnt
  · show ∀ x ∈ elems.take (g.processedLen + 1), f x ≠ none
    intro x hx
    rw [htake1] at hx
    rcases List.mem_append.mp hx with hx | hx
    · exact hsome x hx
    · rcases List.mem_singleton.mp hx with rfl
      rw [hf]
      exact fun h => nomatch h

/-- The DELETED pass of process_loop preserves the invariant, for any
amount of fuel and whatever caused it to stop. -/
theorem processLoop_true_inv {α : Type} [Inhabited α] (f : α → Option Bool)
    (elems : List α) :
    ∀ (fuel : Nat) (g : BackshiftState α), RetainInv f elems g →
      RetainInv f elems (processLoop f true fuel g).1 := by
  intro fuel
  induction fuel with
  | zero =>
    intro g hg
    exact hg
  | succ fuel ih =>
    intro g hg
    by_cases hpe : g.processedLen = g.originalLen
    · have hstep : processLoop f true (fuel + 1) g = (g, LoopExit.completed) := by
        simp only [processLoop, if_pos hpe]
      rw [hstep]
      exact hg
    · cases hf : f (g.buf.getD g.processedLen default) with
      | none =>
        have hstep : processLoop f true (fuel + 1) g = (g, LoopExit.aborted) := by
          simp only [processLoop, if_neg hpe]
          rw [hf]
        rw [hstep]
        exact hg
      | some b =>
        cases b with
        | false =>
          have hstep : processLoop f true (fuel + 1) g =
              processLoop f true fuel
                { g with processedLen := g.processedLen + 1,
                         deletedCnt := g.deletedCnt + 1,
                         destroyed := g.destroyed ++
                           [g.buf.getD g.processedLen default] } := by
            simp only [processLoop, if_neg hpe]
            rw [hf]
            rfl
          rw [hstep]
          exact ih _ (hg.reject hpe hf)
        | true =>
          have hstep : processLoop f true (fuel + 1) g =
              processLoop f true fuel
                { g with buf := g.buf.set (g.processedLen - g.deletedCnt)
                           (g.buf.getD g.processedLen default),
                         processedLen := g.processedLen + 1 } := by
            simp only [processLoop, if_neg hpe]
            rw [hf]
            rfl
          rw [hstep]
          exact ih _ (hg.acceptMove hpe hf)

/-- The first pass of process_loop (DELETED = false) preserves the
invariant; it is entered with no deletions performed yet. -/
theorem processLoop_false_inv {α : Type} [Inhabited α] (f : α → Option Bool)
    (elems : List α) :
    ∀ (fuel : Nat) (g : BackshiftState α), RetainInv f elems g → g.deletedCnt = 0 →
      RetainInv f elems (processLoop f false fuel g).1 := by
  intro fuel
  induction fuel with
  | zero =>
    intro g hg _
    exact hg
  | succ fuel ih =>
    intro g hg hd0
    by_cases hpe : g.processedLen = g.originalLen
    · have hstep : processLoop f false (fuel + 1) g = (g, LoopExit.completed) := by
        simp only [processLoop, if_pos hpe]
      rw [hstep]
      exact hg
    · cases hf : f (g.buf.getD g.processedLen default) with
      | none =>
        have hstep : processLoop f false (fuel + 1) g = (g, LoopExit.aborted) := by
          simp only [processLoop, if_neg hpe]
          rw [hf]
        rw [hstep]
        exact hg
      | some b =>
        cases b with
        | false =>
          have hstep : processLoop f false (fuel + 1) g =
              ({ g with processedLen := g.processedLen + 1,
                        deletedCnt := g.deletedCnt + 1,
                        destroyed := g.destroyed ++
                          [g.buf.getD g.processedLen default] },
                LoopExit.broke) := by
            simp only [processLoop, if_neg hpe]
            rw [hf]
            rfl
          rw [hstep]
          exact hg.reject hpe hf
        | true =>
          have hstep : processLoop f false (fuel + 1) g =
              processLoop f false fuel
                { g with processedLen := g.processedLen + 1 } := by
            simp only [processLoop, if_neg hpe]
            rw [hf]
            rfl
          rw [hstep]
          exact ih _ (hg.acceptStay hpe hd0 hf) hd0

/-- The guard state reached by the loop phase of retain_mut satisfies
the invariant, whatever the predicate did (complete, break or
abort). -/
theorem retainRun_inv {α : Type} [Inhabited α] (f : α → Option Bool) (elems : List α) :
    RetainInv f elems (retainRun f elems) := by
  have h0 : RetainInv f elems
      { buf := elems, processedLen := 0, deletedCnt := 0,
        originalLen := elems.length, destroyed := [] } := by
    refine ⟨rfl, rfl, Nat.le_refl 0, Nat.zero_le _, ?_, rfl, ?_, ?_, ?_⟩
    · simp [acceptedBy]
    · simp [rejectedBy]
    · simp [rejectedBy]
    · intro x hx
      simp at hx
  have h1 := processLoop_false_inv f elems elems.length _ h0 rfl
  cases hE : (processLoop f false elems.length
      { buf := elems, processedLen := 0, deletedCnt := 0,
        originalLen := elems.length, destroyed := [] }).2 with
  | completed =>
    have h2 := processLoop_true_inv f elems elems.length _ h1
    simpa [retainRun, hE] using h2
  | broke =>
    have h2 := processLoop_true_inv f elems elems.length _ h1
    simpa [retainRun, hE] using h2
  | aborted =>
    simpa [retainRun, hE] using h1

/-- The guard drop applied to a state satisfying the invariant yields
as live prefix exactly the accepted processed elements followed by the
unprocessed tail, with length original minus deleted. -/
theorem backshiftDrop_take {α : Type} {f : α → Option Bool} {elems : List α}
    {g : BackshiftState α} (hg : RetainInv f elems g) :
    (backshiftDrop g).1.take (backshiftDrop g).2 =
        acceptedBy f (elems.take g.processedLen) ++ elems.drop g.processedLen ∧
      (backshiftDrop g).2 = elems.length - g.deletedCnt := by
  obtain ⟨hbuf, horig, hdel, hproc, hpre, htail, hdest, hcnt, hsome⟩ := hg
  refine ⟨?_, by simp [backshiftDrop, horig]⟩
  by_cases hd : g.deletedCnt > 0
  · have hstep : (backshiftDrop g).1 =
        ptrCopy g.buf g.processedLen (g.processedLen - g.deletedCnt)
          (g.originalLen - g.processedLen) := by
      simp [backshiftDrop, hd]
    have hlen2 : (backshiftDrop g).2 = g.originalLen - g.deletedCnt := by
      simp [backshiftDrop]
    rw [hstep, hlen2, ptrCopy]
    have hdropfull : (g.buf.drop g.processedLen).take
        (g.originalLen - g.processedLen) = g.buf.drop g.processedLen := by
      refine List.take_of_length_le ?_
      rw [List.length_drop]
      omega
    rw [hdropfull]
    refine (List.take_left' ?_).trans ?_
    · rw [List.length_append, List.length_take, List.length_drop]
      omega
    · rw [hpre, htail]
  · have hd0 : g.deletedCnt = 0 := by omega
    have hstep : (backshiftDrop g).1 = g.buf := by
      simp [backshiftDrop, hd0]
    have hlen2 : (backshiftDrop g).2 = g.originalLen := by
      simp [backshiftDrop, hd0]
    rw [hstep, hlen2, horig, ← hbuf, List.take_length,
      ← List.take_append_drop g.processedLen g.buf, htail]
    rw [hd0, Nat.sub_zero] at hpre
    rw [hpre]

/-- A list every element of which the predicate decides splits, up to
permutation, into its accepted and its rejected elements. -/
theorem acceptedBy_rejectedBy_perm {α : Type} (f : α → Option Bool) :
    ∀ l : List α, (∀ x ∈ l, f x ≠ none) →
      List.Perm (acceptedBy f l ++ rejectedBy f l) l := by
  intro l
  induction l with
  | nil =>
    intro _
    simp [acceptedBy, rejectedBy]
  | cons x t ih =>
    intro h
    have hx := h x (List.mem_cons_self x t)
    have ht := fun y hy => h y (List.mem_cons_of_mem x hy)
    cases hfx : f x with
    | none => exact absurd hfx hx
    | some b =>
      cases b with
      | false =>
        have ha : acceptedBy f (x :: t) = acceptedBy f t := by
          simp [acceptedBy, List.filter_cons, hfx]
        have hr : rejectedBy f (x :: t) = x :: rejectedBy f t := by
          simp [rejectedBy, List.filter_cons, hfx]
        rw [ha, hr]
        exact List.perm_middle.trans ((ih ht).cons x)
      | true =>
        have ha : acceptedBy f (x :: t) = x :: acceptedBy f t := by
          simp [acceptedBy, List.filter_cons, hfx]
        have hr : rejectedBy f (x :: t) = rejectedBy f t := by
          simp [rejectedBy, List.filter_cons, hfx]
        rw [ha, hr, List.cons_append]
        exact (ih ht).cons x

/-- C4: retain with the evenness predicate on [1,2,3,4,5,6] keeps
exactly [2,4,6], in order, with final length 3 (destroying 1, 3 and
5); and for every predicate - including any that aborts partway - the
final length is the original length minus the number of deletions
performed, the deletion counter equals the number of destroyed
elements, and the surviving elements together with the destroyed ones
are a permutation of the original elements: no live slot is leaked and
no element is destroyed twice. -/
theorem retainMut_spec :
    ((retainTotal (fun x => x % 2 == 0) [1, 2, 3, 4, 5, 6]).elems = [2, 4, 6] ∧
        (retainTotal (fun x => x % 2 == 0) [1, 2, 3, 4, 5, 6]).len = 3 ∧
        (retainTotal (fun x => x % 2 == 0) [1, 2, 3, 4, 5, 6]).destroyed = [1, 3, 5]) ∧
      ∀ (α : Type) [Inhabited α] (f : α → Option Bool) (elems : List α),
        (retainMut f elems).len = elems.length - (retainMut f elems).deletedCnt ∧
          (retainMut f elems).deletedCnt = (retainMut f elems).destroyed.length ∧
          List.Perm ((retainMut f elems).elems ++ (retainMut f elems).destroyed)
            elems := by
  refine ⟨by decide, ?_⟩
  intro α _ f elems
  have hg := retainRun_inv f elems
  have hb := backshiftDrop_take hg
  obtain ⟨hbuf, horig, hdel, hproc, hpre, htail, hdest, hcnt, hsome⟩ := hg
  have he : (retainMut f elems).elems =
      acceptedBy f (elems.take (retainRun f elems).processedLen) ++
        elems.drop (retainRun f elems).processedLen := by
    simpa [retainMut] using hb.1
  have hl : (retainMut f elems).len = elems.length - (retainRun f elems).deletedCnt := by
    simpa [retainMut] using hb.2
  have hdc : (retainMut f elems).deletedCnt = (retainRun f elems).deletedCnt := rfl
  have hds : (retainMut f elems).destroyed = (retainRun f elems).destroyed := rfl
  refine ⟨?_, ?_, ?_⟩
  · rw [hl, hdc]
  · rw [hdc, hds, hdest, hcnt]
  · rw [he, hds, hdest]
    have hperm := acceptedBy_rejectedBy_perm f
      (elems.take (retainRun f elems).processedLen) hsome
    have h1 : List.Perm
        ((acceptedBy f (elems.take (retainRun f elems).processedLen) ++
            elems.drop (retainRun f elems).processedLen) ++
          rejectedBy f (elems.take (retainRun f elems).processedLen))
        ((acceptedBy f (elems.take (retainRun f elems).processedLen) ++
            rejectedBy f (elems.take (retainRun f elems).processedLen)) ++
          elems.drop (retainRun f elems).processedLen) := by
      rw [List.append_assoc, List.append_assoc]
      exact List.Perm.append_left _ List.perm_append_comm
    have h2 : List.Perm
        ((acceptedBy f (elems.take (retainRun f elems).processedLen) ++
            rejectedBy f (elems.take (retainRun f elems).processedLen)) ++
          elems.drop (retainRun f elems).processedLen)
        (elems.take (retainRun f elems).processedLen ++
          elems.drop (retainRun f elems).processedLen) :=
      hperm.append_right _
    have h3 : elems.take (retainRun f elems).processedLen ++
        elems.drop (retainRun f elems).processedLen = elems :=
      List.take_append_drop _ _
    have h4 : List.Perm
        (elems.take (retainRun f elems).processedLen ++
          elems.drop (retainRun f elems).processedLen) elems := by
      rw [h3]
    exact (h1.trans h2).trans h4
